import Mathlib

/-!
Verification of the control-interface layer of compliance-trestle
(`trestle/core/control_interface.py`), shallowly embedded in Lean 4.

Python dictionaries are modelled as ordered association lists (insertion
order preserved, keys unique), optional lists as `Option (List _)`, and
mutation as functions returning the updated value.
-/

namespace Trestle

/-- Python whitespace characters recognised by `str.strip()` (ASCII range). -/
def pyIsSpace (c : Char) : Bool :=
  c = ' ' || c = '\t' || c = '\n' || c = '\x0d' || c = '\x0b' || c = '\x0c'

/-- Drop leading whitespace of a character list. -/
def stripLeft (l : List Char) : List Char := l.dropWhile pyIsSpace

/-- Characters of a string after Python `str.strip()`: drop trailing
whitespace (via the reversal), then leading whitespace. -/
def stripChars (l : List Char) : List Char :=
  stripLeft ((stripLeft l.reverse).reverse)

/-- Python `s.strip()` on a Lean string. -/
def pystrip (s : String) : String := ⟨stripChars s.data⟩

/-- Lower-case an ASCII character, as Python `str.lower()` does on ASCII text. -/
def asciiLowerChar (c : Char) : Char :=
  if 'A' ≤ c ∧ c ≤ 'Z' then Char.ofNat (c.toNat + 32) else c

/-- Python `s.lower()` restricted to ASCII content. -/
def asciiLower (s : String) : String := ⟨s.data.map asciiLowerChar⟩

/-- `trestle.common.list_utils.as_list`.  Modelled from the spec: the helper
(not part of the sources at hand) normalises an absent list to the empty
list. -/
def as_list {α : Type} (o : Option (List α)) : List α := o.getD []

/-- `trestle.common.list_utils.none_if_empty`.  Modelled from the spec: the
helper collapses an empty collection to "absent" rather than an empty
container. -/
def none_if_empty {α : Type} (l : List α) : Option (List α) :=
  if l.isEmpty then none else some l

/-- `trestle.common.str_utils.string_from_root`.  Modelled from the spec: the
helper extracts the plain string wrapped by a `__root__` model, yielding the
empty string when the wrapper is absent. -/
def string_from_root (o : Option String) : String := o.getD ""

/-! ### The tagged value variant used by `merge_dicts_deep`

Header mappings are open-ended YAML-like data: strings, integers, sequences
and nested mappings.  A mapping is an ordered association list, mirroring the
insertion order of a Python `dict`. -/

/-- A Python value as it occurs in markdown-header dictionaries. -/
inductive JVal where
  | str : String → JVal
  | int : Int → JVal
  | list : List JVal → JVal
  | dict : List (String × JVal) → JVal

mutual

/-- Decidable equality on `JVal`, mirroring Python `==` on header values. -/
def JVal.decEq : (a b : JVal) → Decidable (a = b)
  | .str a, .str b =>
      if h : a = b then isTrue (by rw [h]) else isFalse (fun hh => by cases hh; exact h rfl)
  | .int a, .int b =>
      if h : a = b then isTrue (by rw [h]) else isFalse (fun hh => by cases hh; exact h rfl)
  | .list a, .list b =>
      match JVal.decEqList a b with
      | isTrue h => isTrue (by rw [h])
      | isFalse h => isFalse (fun hh => by cases hh; exact h rfl)
  | .dict a, .dict b =>
      match JVal.decEqDict a b with
      | isTrue h => isTrue (by rw [h])
      | isFalse h => isFalse (fun hh => by cases hh; exact h rfl)
  | .str _, .int _ => isFalse (fun h => JVal.noConfusion h)
  | .str _, .list _ => isFalse (fun h => JVal.noConfusion h)
  | .str _, .dict _ => isFalse (fun h => JVal.noConfusion h)
  | .int _, .str _ => isFalse (fun h => JVal.noConfusion h)
  | .int _, .list _ => isFalse (fun h => JVal.noConfusion h)
  | .int _, .dict _ => isFalse (fun h => JVal.noConfusion h)
  | .list _, .str _ => isFalse (fun h => JVal.noConfusion h)
  | .list _, .int _ => isFalse (fun h => JVal.noConfusion h)
  | .list _, .dict _ => isFalse (fun h => JVal.noConfusion h)
  | .dict _, .str _ => isFalse (fun h => JVal.noConfusion h)
  | .dict _, .int _ => isFalse (fun h => JVal.noConfusion h)
  | .dict _, .list _ => isFalse (fun h => JVal.noConfusion h)
termination_by a _ => sizeOf a

/-- Decidable equality on lists of `JVal`. -/
def JVal.decEqList : (a b : List JVal) → Decidable (a = b)
  | [], [] => isTrue rfl
  | [], _ :: _ => isFalse (fun h => List.noConfusion h)
  | _ :: _, [] => isFalse (fun h => List.noConfusion h)
  | x :: xs, y :: ys =>
      match JVal.decEq x y, JVal.decEqList xs ys with
      | isTrue h1, isTrue h2 => isTrue (by rw [h1, h2])
      | isFalse h1, _ => isFalse (fun hh => by cases hh; exact h1 rfl)
      | _, isFalse h2 => isFalse (fun hh => by cases hh; exact h2 rfl)
termination_by a _ => sizeOf a

/-- Decidable equality on `JVal` association lists. -/
def JVal.decEqDict : (a b : List (String × JVal)) → Decidable (a = b)
  | [], [] => isTrue rfl
  | [], _ :: _ => isFalse (fun h => List.noConfusion h)
  | _ :: _, [] => isFalse (fun h => List.noConfusion h)
  | (k, v) :: xs, (k', v') :: ys =>
      if h0 : k = k' then
        match JVal.decEq v v', JVal.decEqDict xs ys with
        | isTrue h1, isTrue h2 => isTrue (by rw [h0, h1, h2])
        | isFalse h1, _ => isFalse (fun hh => by cases hh; exact h1 rfl)
        | _, isFalse h2 => isFalse (fun hh => by cases hh; exact h2 rfl)
      else isFalse (fun hh => by cases hh; exact h0 rfl)
termination_by a _ => sizeOf a

end

instance : DecidableEq JVal := JVal.decEq

/-- The inner loop of the sequence case of `merge_dicts_deep`: append each
item of `src` that is not already present in the (growing) destination
sequence. -/
def appendNovel (dst : List JVal) : List JVal → List JVal
  | [] => dst
  | x :: rest => if x ∈ dst then appendNovel dst rest else appendNovel (dst ++ [x]) rest

mutual

/-- Merge the values found under a shared key: recurse on two mappings,
append novel items on two sequences, otherwise keep `dest` unless
`overwrite` is set (`ControlInterface.merge_dicts_deep`, collision cases). -/
def jmerge (ov : Bool) : JVal → JVal → JVal
  | .dict d, .dict s => .dict (merge_dicts_deep d s ov)
  | .list d, .list s => .list (appendNovel d s)
  | d, s => if ov then s else d
termination_by _ b => 2 * sizeOf b + 1

/-- `ControlInterface.merge_dicts_deep(dest, src, overwrite_header_values)`:
iterate over the keys of `src`; a shared key merges its two values via
`jmerge` in place (the assignment `dest[key] = ...` on a dict with unique
keys), a fresh key is appended. -/
def merge_dicts_deep (dest : List (String × JVal)) (src : List (String × JVal)) (ov : Bool) :
    List (String × JVal) :=
  match src with
  | [] => dest
  | (k, v) :: rest =>
      if k ∈ dest.map Prod.fst then
        merge_dicts_deep
          (dest.map fun kv => if kv.1 = k then (kv.1, jmerge ov kv.2 v) else kv) rest ov
      else
        merge_dicts_deep (dest ++ [(k, v)]) rest ov
termination_by 2 * sizeOf src

end

/-! ### Properties and the property CRUD operations -/

/-- `common.Property`: a name/value pair with optional remarks. -/
structure Property where
  name : String
  value : String
  remarks : Option String
deriving DecidableEq

/-- Name comparison used by `ControlInterface.get_prop`:
`prop.name.strip().lower() == prop_name.strip().lower()`. -/
def prop_name_matches (a b : String) : Bool :=
  asciiLower (pystrip a) = asciiLower (pystrip b)

/-- `ControlInterface.get_prop(part_control, prop_name, default)`: first
property whose stripped lower-cased name matches, returning its stripped
value; otherwise the default when truthy, else the empty string. -/
def get_prop (props : Option (List Property)) (prop_name : String) (default : Option String) :
    String :=
  match (as_list props).find? (fun p => prop_name_matches p.name prop_name) with
  | some p => pystrip p.value
  | none => default.getD ""

/-- Remove the first property carrying exactly the given name (the
`names.index` deletion shared by `_delete_prop` and `_replace_prop`). -/
def erase_first_prop (l : List Property) (n : String) : List Property :=
  match l with
  | [] => []
  | p :: t => if p.name = n then t else p :: erase_first_prop t n

/-- `ControlInterface._delete_prop(part_control, prop_name)`: delete the
first property with exactly that name, then collapse an empty collection to
`none`. -/
def delete_prop (props : Option (List Property)) (prop_name : String) :
    Option (List Property) :=
  none_if_empty (erase_first_prop (as_list props) prop_name)

/-- `ControlInterface._replace_prop(part_control, new_prop)`: delete the
first property with exactly the new property's name if present, then append
the new property. -/
def replace_prop (props : Option (List Property)) (new_prop : Property) :
    Option (List Property) :=
  some (erase_first_prop (as_list props) new_prop.name ++ [new_prop])

/-! ### Parameters and their string rendering -/

/-- `common.HowMany` for a parameter selection. -/
inductive HowMany where
  | one
  | one_or_more
deriving DecidableEq

/-- `common.ParameterSelection`. -/
structure ParameterSelection where
  how_many : Option HowMany
  choice : Option (List String)
deriving DecidableEq

/-- `common.Parameter` (values unwrapped from their `__root__` holders). -/
structure Parameter where
  id : String
  label : Option String
  select : Option ParameterSelection
  values : Option (List String)
deriving DecidableEq

/-! ### Parts and controls -/

/-- `common.Part`: the recursive prose tree inside a control.  Optional
identifier/title are modelled as strings with `""` standing for an absent
(`None`) value — every use in the source is a truthiness test or an equality
against a string; the optional child list is modelled as a plain list since
the source only tests its truthiness (`if part.parts:`). -/
structure Part where
  id : String
  name : String
  title : String
  prose : Option String
  props : Option (List Property)
  parts : List Part

/-- `cat.Control` (the fields the control interface touches). -/
structure Control where
  id : String
  title : String
  params : Option (List Parameter)
  props : Option (List Property)
  parts : List Part

/-- `ControlInterface._gap_join(a_str, b_str)`. -/
def _gap_join (a_str b_str : String) : String :=
  let a_clean := pystrip a_str
  let b_clean := pystrip b_str
  if b_clean = "" then a_clean
  else a_clean ++ (if a_clean = "" then "" else "\n") ++ b_clean

/-- `ControlInterface._get_control_section_part(part, section_name)`: gap-join
the part's own prose (when the name matches and prose is present) with the
recursive prose of every child part, in document order. -/
def _get_control_section_part : Part → String → String
  | ⟨_, name, _, prose, _, parts⟩, section_name =>
    let init := if name = section_name ∧ prose.isSome then _gap_join "" (prose.getD "") else ""
    parts.attach.foldl
      (fun acc sub => _gap_join acc (_get_control_section_part sub.1 section_name)) init
termination_by p _ => sizeOf p
decreasing_by
  simp_wf
  have h := List.sizeOf_lt_of_mem sub.2
  omega

/-- `ControlInterface._get_control_section_prose(control, section_name)`. -/
def _get_control_section_prose (control : Control) (section_name : String) : String :=
  control.parts.foldl
    (fun acc part => _gap_join acc (_get_control_section_part part section_name)) ""

mutual

/-- `ControlInterface._find_section_info(part, skip_section_list)`: the part
itself when it has truthy prose and an unskipped name, else the first child
result with a truthy id. -/
def _find_section_info : Part → List String → String × String × String
  | ⟨pid, name, title, prose, _, parts⟩, skips =>
    if prose.getD "" ≠ "" ∧ name ∉ skips then (pid, name, title)
    else _find_section_loop parts skips

/-- The search loop shared by `_find_section_info` and `_find_section`:
return the first sub-result with a truthy id, else the empty triple. -/
def _find_section_loop : List Part → List String → String × String × String
  | [], _ => ("", "", "")
  | p :: rest, skips =>
    let t := _find_section_info p skips
    if t.1 ≠ "" then t else _find_section_loop rest skips

end

/-- `ControlInterface._find_section(control, skip_section_list)`. -/
def _find_section (control : Control) (skips : List String) : String × String × String :=
  _find_section_loop control.parts skips

/-- `ControlInterface.get_section(control, skip_section_list)`: the found
triple together with the gap-joined prose of the found section name. -/
def get_section (control : Control) (skips : List String) :
    String × String × String × String :=
  let t := _find_section control skips
  if t.1 ≠ "" then (t.1, t.2.1, t.2.2, _get_control_section_prose control t.2.1)
  else ("", "", "", "")

mutual

/-- Pre-order flattening of a part tree (specification device for the
depth-first searches). -/
def preorderP : Part → List Part
  | ⟨pid, name, title, prose, props, subs⟩ =>
    ⟨pid, name, title, prose, props, subs⟩ :: preorderL subs

/-- Pre-order flattening of a part forest. -/
def preorderL : List Part → List Part
  | [] => []
  | p :: rest => preorderP p ++ preorderL rest

end

/-- Join non-empty pieces with a single newline (specification device). -/
def joinNL : List String → String
  | [] => ""
  | [x] => x
  | x :: rest => x ++ "\n" ++ joinNL rest

/-- The gap-join rule as the specification states it: strip every piece,
drop the empty ones, separate consecutive survivors by exactly one
newline. -/
def specJoin (l : List String) : String :=
  joinNL ((l.map pystrip).filter (· ≠ ""))

/-- The prose pieces of a part forest (at any depth, in document order)
whose part name matches the section name and whose prose is present
(specification device). -/
def piecesL (ps : List Part) (section_name : String) : List String :=
  (preorderL ps).filterMap (fun p => if p.name = section_name then p.prose else none)

/-- The matching prose pieces of a single part tree (specification
device). -/
def piecesP (p : Part) (section_name : String) : List String :=
  (preorderP p).filterMap (fun q => if q.name = section_name then q.prose else none)

/-- The prose pieces of all parts of the control (at any depth, in document
order) whose name matches the section name and whose prose is present
(specification device). -/
def matchingProses (control : Control) (section_name : String) : List String :=
  piecesL control.parts section_name

/-- The acceptance test of the section search as the specification states
it: truthy prose and a name outside the skip list (specification device). -/
def section_match (skips : List String) (q : Part) : Bool :=
  decide (q.prose.getD "" ≠ "") && decide (q.name ∉ skips)

/-! ### Rendering a part tree (`get_part`) -/

/-- The nested rendering produced by `ControlInterface.get_part`: a list
whose entries are either formatted lines or nested sub-lists. -/
inductive RItem where
  | line : String → RItem
  | sub : List RItem → RItem

/-- `ControlInterface._wrap_label(label)`. -/
def _wrap_label (label : String) : String :=
  if label = "" then "" else "\\[" ++ label ++ "\\]"

/-- `ControlInterface.get_label(part_control)`. -/
def get_label (props : Option (List Property)) : String :=
  get_prop props "label" none

/-- `ControlInterface.get_part(part, item_type, skip_id)`: render the part
when its name is `statement` or the item type — one line (unless the id is
the skipped one) followed by a nested sub-list for its children; any other
name yields the empty list without recursing. -/
def get_part : Part → String → Option String → List RItem
  | ⟨pid, name, _, prose, props, subs⟩, item_type, skip_id =>
    if name = "statement" ∨ name = item_type then
      let label0 := get_label props
      let label := if label0 = "" then (pid.splitOn ".").getLastD "" else label0
      let wrapped := _wrap_label label
      let pad := if wrapped = "" ∨ prose.getD "" = "" then "" else " "
      let prose_s := prose.getD ""
      let base := if skip_id ≠ some pid then [RItem.line (wrapped ++ pad ++ prose_s)] else []
      let subsPart :=
        if subs.isEmpty then []
        else [RItem.sub
          ((subs.attach.map fun sub => get_part sub.1 item_type skip_id).flatten ++
            [RItem.line ""])]
      base ++ subsPart
    else []
termination_by p _ _ => sizeOf p
decreasing_by
  simp_wf
  have h := List.sizeOf_lt_of_mem sub.2
  omega

/-! ### Parameter rendering (`param_to_str`) -/

/-- `ParameterRep`: the five rendering modes. -/
inductive ParameterRep where
  | LEAVE_MOUSTACHE
  | VALUE_OR_STRING_NONE
  | LABEL_OR_CHOICES
  | VALUE_OR_LABEL_OR_CHOICES
  | VALUE_OR_EMPTY_STRING
deriving DecidableEq

/-- `ControlInterface._param_values_as_str_list(param)`. -/
def _param_values_as_str_list (param : Parameter) : List String :=
  as_list param.values

/-- `ControlInterface._param_values_as_str(param, brackets)`: `none` when the
parameter has no values, else the comma-joined values, optionally
bracketed. -/
def _param_values_as_str (param : Parameter) (brackets : Bool) : Option String :=
  if (as_list param.values).isEmpty then none
  else
    let values_str := String.intercalate ", " (_param_values_as_str_list param)
    some (if brackets then "[" ++ values_str ++ "]" else values_str)

/-- `ControlInterface._param_selection_as_str(param, verbose, brackets)`. -/
def _param_selection_as_str (param : Parameter) (verbose brackets : Bool) : String :=
  match param.select with
  | some sel =>
    if ¬(as_list sel.choice).isEmpty then
      let how_many_str :=
        match sel.how_many with
        | some hm => if hm = HowMany.one then "one" else "one or more"
        | none => ""
      let choices_str := String.intercalate "; " (as_list sel.choice)
      let choices_str := if brackets then "[" ++ choices_str ++ "]" else choices_str
      if verbose then "Choose " ++ how_many_str ++ ": " ++ choices_str else choices_str
    else ""
  | none => ""

/-- `ControlInterface._param_label_choices_as_str(param, verbose, brackets)`:
the selection string if any, else the label if truthy, else the id. -/
def _param_label_choices_as_str (param : Parameter) (verbose brackets : Bool) : String :=
  let choices := _param_selection_as_str param verbose brackets
  let text := if choices ≠ "" then choices else param.label.getD ""
  if text ≠ "" then text else param.id

/-- Python `params_format.count('.')`. -/
def countDots (s : String) : Nat := s.data.countP (· = '.')

/-- Python `params_format.replace('.', param_str)` for the single-character
pattern `'.'`. -/
def replaceDots (s : String) (repl : String) : String :=
  ⟨(s.data.map (fun c => if c = '.' then repl.data else [c])).flatten⟩

/-- The mode dispatch of `param_to_str` that computes the `param_str`
variable before the format template is applied. -/
def renderByMode (param : Parameter) (param_rep : ParameterRep) (verbose brackets : Bool) :
    Option String :=
  match param_rep with
  | .LEAVE_MOUSTACHE => none
  | .VALUE_OR_STRING_NONE =>
      let v := _param_values_as_str param false
      if v.getD "" = "" then some "None" else v
  | .LABEL_OR_CHOICES => some (_param_label_choices_as_str param verbose brackets)
  | .VALUE_OR_LABEL_OR_CHOICES =>
      let v := _param_values_as_str param false
      if v.getD "" = "" then some (_param_label_choices_as_str param verbose brackets) else v
  | .VALUE_OR_EMPTY_STRING =>
      let v := _param_values_as_str param brackets
      if v.getD "" = "" then some "" else v

/-- `ControlInterface.param_to_str(param, param_rep, verbose, brackets,
params_format)`: render by mode, then — only when the rendered string is not
`None` and the template is truthy — reject a template with more than one dot
and otherwise substitute the rendered string for the dot. -/
def param_to_str (param : Parameter) (param_rep : ParameterRep) (verbose brackets : Bool)
    (params_format : Option String) : Except String (Option String) :=
  let param_str := renderByMode param param_rep verbose brackets
  match param_str with
  | some s =>
      if params_format.getD "" ≠ "" then
        let fmt := params_format.getD ""
        if countDots fmt > 1 then
          Except.error
            ("Additional text " ++ fmt ++ " for the parameters cannot contain multiple dots (.)")
        else Except.ok (some (replaceDots fmt s))
      else Except.ok (some s)
  | none => Except.ok none

/-! ### Rule and parameter metadata extraction from properties -/

/-- A `dict` assignment `d[k] = v` on an ordered mapping with unique keys:
overwrite in place when the key exists, else append. -/
def dict_assign {α : Type} (d : List (String × α)) (k : String) (v : α) : List (String × α) :=
  if k ∈ d.map Prod.fst then d.map (fun kv => if kv.1 = k then (kv.1, v) else kv)
  else d ++ [(k, v)]

/-- The name/description entry stored by `get_rules_from_item`. -/
structure RuleInfo where
  name : String
  description : String
deriving DecidableEq

/-- The loop of `ControlInterface.get_rules_from_item`: collect
`rule_name_id` / `rule_description` pairs, committing a pair (and clearing
the accumulators) as soon as both are present. -/
def rules_loop (rules : List (String × RuleInfo)) (name desc id_ : String) :
    List Property → List (String × RuleInfo)
  | [] => rules
  | prop :: rest =>
    let name' := if prop.name = "rule_name_id" then prop.value else name
    let id' := if prop.name = "rule_name_id" then string_from_root prop.remarks else id_
    let desc' := if prop.name = "rule_description" then prop.value else desc
    if name' ≠ "" ∧ desc' ≠ "" then
      rules_loop (dict_assign rules id' ⟨name', desc'⟩) "" "" "" rest
    else
      rules_loop rules name' desc' id' rest

/-- `ControlInterface.get_rules_from_item(item)`. -/
def get_rules_from_item (props : Option (List Property)) : List (String × RuleInfo) :=
  rules_loop [] "" "" "" (as_list props)

/-- `ControlInterface.get_rule_list_for_item(item)`. -/
def get_rule_list_for_item (props : Option (List Property)) : List String :=
  ((as_list props).filter (fun p => p.name = "rule_name_id")).map Property.value

/-- The per-rule record accumulated by `get_params_from_item` (the Python
dict with keys `name`, `description`, `options`). -/
structure ParamInfo where
  name : String
  description : Option String
  options : Option String
deriving DecidableEq

/-- The loop of `ControlInterface.get_params_from_item`: a `param_id`
property opens a fresh entry for its rule id (an existing entry is a fatal
duplicate); `param_description` / `param_options` extend the existing entry
of their rule id (a missing entry is a fatal orphan). -/
def params_loop (params : List (String × ParamInfo)) :
    List Property → Except String (List (String × ParamInfo))
  | [] => Except.ok params
  | prop :: rest =>
    if prop.name = "param_id" then
      let rule_id := string_from_root prop.remarks
      if rule_id ∈ params.map Prod.fst then
        Except.error ("Duplicate param " ++ prop.value ++ " found for rule " ++ rule_id)
      else params_loop (params ++ [(rule_id, ⟨prop.value, none, none⟩)]) rest
    else if prop.name = "param_description" then
      let rule_id := string_from_root prop.remarks
      if rule_id ∈ params.map Prod.fst then
        params_loop
          (params.map fun kv =>
            if kv.1 = rule_id then (kv.1, { kv.2 with description := some prop.value }) else kv)
          rest
      else Except.error ("Param description for rule " ++ rule_id ++ " found with no param_id")
    else if prop.name = "param_options" then
      let rule_id := string_from_root prop.remarks
      if rule_id ∈ params.map Prod.fst then
        params_loop
          (params.map fun kv =>
            if kv.1 = rule_id then (kv.1, { kv.2 with options := some prop.value }) else kv)
          rest
      else Except.error ("Param options for rule " ++ rule_id ++ " found with no param_id")
    else params_loop params rest

/-- `ControlInterface.get_params_from_item(item)`. -/
def get_params_from_item (props : Option (List Property)) :
    Except String (List (String × ParamInfo)) :=
  params_loop [] (as_list props)

/-- The rule ids carried (via remarks) by the `param_id` properties of a
property sequence, in order (specification device: "the rule ids for which
a `param_id` property was seen"). -/
def paramIds (props : List Property) : List String :=
  (props.filter (fun q => q.name = "param_id")).map (fun q => string_from_root q.remarks)

/-! ### Implementation status and the imp-req upsert -/

/-- `const.IMPLEMENTATION_STATUS`.  Modelled from the spec: the well-known
property name projecting the status record (the constants module is not
among the sources at hand). -/
def IMPLEMENTATION_STATUS : String := "implementation-status"

/-- `const.STATUS_OTHER`.  Modelled from the spec: the sentinel "other"
state used when no status property is present. -/
def STATUS_OTHER : String := "other"

/-- `const.REPLACE_ME`.  Modelled from the spec: placeholder text for the
source and description of a freshly created control-implementation
bucket. -/
def REPLACE_ME : String := "REPLACE_ME"

/-- A fresh `uuid4()` value; external randomness is modelled as a fixed
placeholder (no claim depends on its value). -/
def uuid4_str : String := "00000000-0000-4000-8000-000000000000"

/-- `common.ImplementationStatus`. -/
structure ImplementationStatus where
  state : String
  remarks : Option String
deriving DecidableEq

/-- `ControlInterface.get_status_from_props(item)`: the first
implementation-status property as a status, else the sentinel. -/
def get_status_from_props (props : Option (List Property)) : ImplementationStatus :=
  match (as_list props).find? (fun p => p.name = IMPLEMENTATION_STATUS) with
  | some prop => ⟨prop.value, prop.remarks⟩
  | none => ⟨STATUS_OTHER, none⟩

/-- `ControlInterface._status_as_prop(status)`. -/
def _status_as_prop (status : ImplementationStatus) : Property :=
  ⟨IMPLEMENTATION_STATUS, status.state, status.remarks⟩

/-- `ControlInterface._prop_as_status(prop)`. -/
def _prop_as_status (prop : Property) : ImplementationStatus :=
  ⟨prop.value, prop.remarks⟩

/-- `ControlInterface.insert_status_in_props(item, status)`. -/
def insert_status_in_props (props : Option (List Property)) (status : ImplementationStatus) :
    Option (List Property) :=
  replace_prop props (_status_as_prop status)

/-- `ControlInterface._copy_status_in_props(dest, src)`. -/
def _copy_status_in_props (dest src : Option (List Property)) : Option (List Property) :=
  insert_status_in_props dest (get_status_from_props src)

/-- `comp.Statement` (the fields the upsert touches, plus `uuid` as a
representative field the markdown-derived statement does not carry). -/
structure Statement where
  statement_id : String
  uuid : String
  description : String
  props : Option (List Property)
deriving DecidableEq

/-- `comp.ImplementedRequirement` (the fields the upsert touches). -/
structure ImplementedRequirement where
  uuid : String
  control_id : String
  description : String
  props : Option (List Property)
  statements : Option (List Statement)
deriving DecidableEq

/-- `comp.ControlImplementation` (the fields the upsert touches). -/
structure ControlImplementation where
  uuid : String
  source : String
  description : String
  implemented_requirements : Option (List ImplementedRequirement)
deriving DecidableEq

/-- `comp.DefinedComponent` (the fields the upsert touches). -/
structure DefinedComponent where
  title : String
  control_implementations : Option (List ControlImplementation)
deriving DecidableEq

/-- `{stat.statement_id: stat for stat in stmts}.get(sid)`: a Python dict
comprehension keeps the last statement carrying each id. -/
def statement_dict_get (stmts : List Statement) (sid : String) : Option Statement :=
  stmts.foldl (fun acc s => if s.statement_id = sid then some s else acc) none

/-- The per-statement update of the upsert: take the original statement when
one with the same id exists (else the new one), then overwrite its
description and status from the new statement. -/
def update_statement (stat new_stmt : Statement) : Statement :=
  { stat with
    description := new_stmt.description,
    props := _copy_status_in_props stat.props new_stmt.props }

/-- The statement merge of the upsert, in the order of the new statements. -/
def merge_statements (old_stmts new_stmts : List Statement) : List Statement :=
  new_stmts.map (fun s => update_statement ((statement_dict_get old_stmts s.statement_id).getD s) s)

/-- The update applied to a matched implemented requirement: replace its
status by the new requirement's status and merge the statements. -/
def update_imp_req (old new_req : ImplementedRequirement) : ImplementedRequirement :=
  { old with
    props := replace_prop old.props (_status_as_prop (get_status_from_props new_req.props)),
    statements :=
      none_if_empty (merge_statements (as_list old.statements) (as_list new_req.statements)) }

/-- The inner loop of `insert_imp_req_into_component`: update the first
implemented requirement with the matching control id, or report no match. -/
def try_update_imp_reqs (nr : ImplementedRequirement) :
    List ImplementedRequirement → Option (List ImplementedRequirement)
  | [] => none
  | ir :: rest =>
    if ir.control_id = nr.control_id then some (update_imp_req ir nr :: rest)
    else (try_update_imp_reqs nr rest).map (ir :: ·)

/-- The outer loop of `insert_imp_req_into_component` over the
control-implementation buckets. -/
def try_update_cis (nr : ImplementedRequirement) :
    List ControlImplementation → Option (List ControlImplementation)
  | [] => none
  | ci :: rest =>
    match try_update_imp_reqs nr (as_list ci.implemented_requirements) with
    | some irs => some ({ ci with implemented_requirements := some irs } :: rest)
    | none => (try_update_cis nr rest).map (ci :: ·)

/-- `ControlInterface.insert_imp_req_into_component(component, new_imp_req)`:
update the first implemented requirement matching the control id; otherwise
append the new requirement to the first control-implementation bucket,
creating that bucket when the component has none. -/
def insert_imp_req_into_component (c : DefinedComponent) (nr : ImplementedRequirement) :
    DefinedComponent :=
  match try_update_cis nr (as_list c.control_implementations) with
  | some cis => { c with control_implementations := some cis }
  | none =>
    let cis0 := as_list c.control_implementations
    let cis := if cis0.isEmpty then [⟨uuid4_str, REPLACE_ME, REPLACE_ME, none⟩] else cis0
    match cis with
    | [] => c
    | ci0 :: rest =>
      let imp_reqs := as_list ci0.implemented_requirements ++ [nr]
      let ci0' := { ci0 with implemented_requirements := some imp_reqs }
      { c with control_implementations := some (ci0' :: rest) }

/-! ## Theorems -/

/-- C7: a parameter with no values rendered in mode `VALUE_OR_STRING_NONE`
with no format template yields the literal string `"None"`; a parameter
whose values are exactly `["x"]` yields `"x"`. -/
theorem param_to_str_value_or_string_none_basic (p : Parameter) (v b : Bool) :
    (as_list p.values = [] →
      param_to_str p ParameterRep.VALUE_OR_STRING_NONE v b none = Except.ok (some "None")) ∧
    (p.values = some ["x"] →
      param_to_str p ParameterRep.VALUE_OR_STRING_NONE v b none = Except.ok (some "x")) := by
  constructor
  · intro h
    simp [param_to_str, renderByMode, _param_values_as_str, h]
  · intro h
    have hv : _param_values_as_str p false = some "x" := by
      simp only [_param_values_as_str, _param_values_as_str_list, as_list, h]
      rfl
    simp [param_to_str, renderByMode, hv]

/-- Witness for C7 at two concrete parameters. -/
theorem param_to_str_value_or_string_none_basic_witness :
    param_to_str ⟨"p1", none, none, none⟩ ParameterRep.VALUE_OR_STRING_NONE false false none =
      Except.ok (some "None") ∧
    param_to_str ⟨"p1", none, none, some ["x"]⟩ ParameterRep.VALUE_OR_STRING_NONE false false
      none = Except.ok (some "x") :=
  ⟨(param_to_str_value_or_string_none_basic ⟨"p1", none, none, none⟩ false false).1 rfl,
   (param_to_str_value_or_string_none_basic ⟨"p1", none, none, some ["x"]⟩ false false).2 rfl⟩

/-- C8: a part whose name is neither `statement` nor the requested item type
renders to the empty list — `get_part` does not recurse, so matching parts
beneath a non-matching ancestor are never rendered. -/
theorem get_part_nonmatching_part_empty (p : Part) (item_type : String)
    (skip_id : Option String) (h1 : p.name ≠ "statement") (h2 : p.name ≠ item_type) :
    get_part p item_type skip_id = [] := by
  cases p with
  | mk pid name title prose props parts =>
    simp only [Part.name] at h1 h2
    simp [get_part, h1, h2]

/-- Witness for C8: a `bogus`-named part with an `item`-typed child renders
to nothing. -/
theorem get_part_nonmatching_part_empty_witness :
    get_part ⟨"id1", "bogus", "", some "prose", none,
      [⟨"id1.a", "item", "", some "child prose", none, []⟩]⟩ "item" none = [] :=
  get_part_nonmatching_part_empty _ _ _ (by decide) (by decide)

/-- C9: in mode `LEAVE_MOUSTACHE` the rendered string is `None` and no
format error is ever raised, whatever the template; in general the template
check and substitution apply only when the mode produced a non-`None`
string. -/
theorem param_to_str_leave_moustache_no_format_check :
    (∀ (p : Parameter) (v b : Bool) (fmt : Option String),
       param_to_str p ParameterRep.LEAVE_MOUSTACHE v b fmt = Except.ok none) ∧
    (∀ (p : Parameter) (m : ParameterRep) (v b : Bool) (fmt : Option String),
       renderByMode p m v b = none → param_to_str p m v b fmt = Except.ok none) := by
  constructor
  · intro p v b fmt
    simp [param_to_str, renderByMode]
  · intro p m v b fmt h
    simp [param_to_str, h]

/-- Witness for C9: a two-dot template with `LEAVE_MOUSTACHE` yields `None`
without an error. -/
theorem param_to_str_leave_moustache_no_format_check_witness :
    param_to_str ⟨"p1", none, none, some ["x"]⟩ ParameterRep.LEAVE_MOUSTACHE false false
      (some "a.b.c") = Except.ok none :=
  param_to_str_leave_moustache_no_format_check.2 ⟨"p1", none, none, some ["x"]⟩
    ParameterRep.LEAVE_MOUSTACHE false false (some "a.b.c") rfl

/-- C10: `get_prop` matches names case-insensitively after trimming, while
`_replace_prop` and `_delete_prop` match by exact string equality; so on a
node whose only property is named `Status`, replacing with a property named
`status` keeps the old property and appends the new one, and deleting by
`status` removes nothing, even though `get_prop` finds either spelling. -/
theorem prop_ops_name_matching (v w : String) (r r' : Option String) (d : Option String) :
    (∀ (props : Option (List Property)) (n1 n2 : String),
        asciiLower (pystrip n1) = asciiLower (pystrip n2) →
        get_prop props n1 d = get_prop props n2 d) ∧
    get_prop (some [⟨"Status", v, r⟩]) "status" d = pystrip v ∧
    get_prop (some [⟨"Status", v, r⟩]) "Status" d = pystrip v ∧
    replace_prop (some [⟨"Status", v, r⟩]) ⟨"status", w, r'⟩ =
      some [⟨"Status", v, r⟩, ⟨"status", w, r'⟩] ∧
    delete_prop (some [⟨"Status", v, r⟩]) "status" = some [⟨"Status", v, r⟩] := by
  refine ⟨?_, ?_, ?_, ?_, ?_⟩
  · intro props n1 n2 h
    simp [get_prop, prop_name_matches, h]
  · have hm : prop_name_matches "Status" "status" = true := by decide
    simp [get_prop, as_list, List.find?, hm]
  · have hm : prop_name_matches "Status" "Status" = true := by decide
    simp [get_prop, as_list, List.find?, hm]
  · simp [replace_prop, erase_first_prop, as_list]
  · simp [delete_prop, erase_first_prop, as_list, none_if_empty]

/-- Witness for C10: trimming and case folding make ` STATUS ` and `status`
look up the same property. -/
theorem prop_ops_name_matching_witness :
    get_prop (some [⟨"Status", "a", none⟩]) " STATUS " none =
      get_prop (some [⟨"Status", "a", none⟩]) "status" none :=
  (prop_ops_name_matching "a" "b" none none none).1 (some [⟨"Status", "a", none⟩])
    " STATUS " "status" (by decide)

/-- C6 counterexample: with rendering mode `LEAVE_MOUSTACHE` a template
containing two dots raises no format error — the call returns `None` — so
the check is not performed for every rendering mode as claimed. -/
theorem param_to_str_multidot_no_error_counterexample :
    param_to_str ⟨"p1", none, none, some ["x"]⟩ ParameterRep.LEAVE_MOUSTACHE false false
      (some "a.b.c") = Except.ok none ∧ countDots "a.b.c" = 2 := by
  constructor
  · rfl
  · rfl

/-- C6 (amended): whenever the selected mode rendered a non-`None` string
and a non-empty template is supplied, a template with more than one dot
fails with a format error, and a template with exactly one dot has the dot
substituted by the rendered string. -/
theorem param_to_str_format_template (p : Parameter) (m : ParameterRep) (v b : Bool)
    (fmt s : String) (hr : renderByMode p m v b = some s) (hf : fmt ≠ "") :
    (countDots fmt > 1 →
      param_to_str p m v b (some fmt) =
        Except.error
          ("Additional text " ++ fmt ++ " for the parameters cannot contain multiple dots (.)")) ∧
    (countDots fmt = 1 →
      param_to_str p m v b (some fmt) = Except.ok (some (replaceDots fmt s))) := by
  constructor
  · intro h
    simp [param_to_str, hr, hf, h]
  · intro h
    have h2 : ¬ countDots fmt > 1 := by omega
    simp [param_to_str, hr, hf, h2]

/-- Witness for C6: a one-dot template around a single-valued parameter. -/
theorem param_to_str_format_template_witness :
    param_to_str ⟨"p1", none, none, some ["x"]⟩ ParameterRep.VALUE_OR_STRING_NONE false false
      (some "<.>") = Except.ok (some "<x>") :=
  ((param_to_str_format_template ⟨"p1", none, none, some ["x"]⟩
      ParameterRep.VALUE_OR_STRING_NONE false false "<.>" "x" rfl (by decide)).2
    (by decide)).trans (by rfl)

/-- Updating the values of an ordered mapping pointwise leaves its key
sequence unchanged. -/
theorem keys_map_update {α : Type} (d : List (String × α)) (k : String) (f : String × α → α) :
    (d.map fun kv => if kv.1 = k then (kv.1, f kv) else kv).map Prod.fst =
      d.map Prod.fst := by
  induction d with
  | nil => simp
  | cons kv rest ih =>
    by_cases h : kv.1 = k <;> simp [h, ih]

/-- `params_loop` processes a concatenation left to right, propagating the
first error. -/
theorem params_loop_append (xs ys : List Property) :
    ∀ acc : List (String × ParamInfo),
    params_loop acc (xs ++ ys) =
      match params_loop acc xs with
      | Except.ok acc' => params_loop acc' ys
      | Except.error e => Except.error e := by
  induction xs with
  | nil => intro acc; simp [params_loop]
  | cons p rest ih =>
    intro acc
    simp only [List.cons_append, params_loop]
    split_ifs <;> simp [ih]

/-- The keys accumulated by a successful `params_loop` run are the incoming
keys followed by the rule ids of the `param_id` properties processed. -/
theorem params_loop_keys (xs : List Property) :
    ∀ acc res : List (String × ParamInfo),
    params_loop acc xs = Except.ok res →
    res.map Prod.fst = acc.map Prod.fst ++ paramIds xs := by
  induction xs with
  | nil =>
    intro acc res h
    simp [params_loop] at h
    simp [← h, paramIds]
  | cons p rest ih =>
    intro acc res h
    simp only [params_loop] at h
    by_cases h1 : p.name = "param_id"
    · rw [if_pos h1] at h
      by_cases h2 : string_from_root p.remarks ∈ acc.map Prod.fst
      · rw [if_pos h2] at h
        exact absurd h (by simp)
      · rw [if_neg h2] at h
        rw [ih _ _ h]
        simp [paramIds, h1, List.filter_cons]
    · rw [if_neg h1] at h
      by_cases h2 : p.name = "param_description"
      · rw [if_pos h2] at h
        by_cases h3 : string_from_root p.remarks ∈ acc.map Prod.fst
        · rw [if_pos h3] at h
          rw [ih _ _ h, keys_map_update]
          simp [paramIds, List.filter_cons, h1]
        · rw [if_neg h3] at h
          exact absurd h (by simp)
      · rw [if_neg h2] at h
        by_cases h4 : p.name = "param_options"
        · rw [if_pos h4] at h
          by_cases h3 : string_from_root p.remarks ∈ acc.map Prod.fst
          · rw [if_pos h3] at h
            rw [ih _ _ h, keys_map_update]
            simp [paramIds, List.filter_cons, h1]
          · rw [if_neg h3] at h
            exact absurd h (by simp)
        · rw [if_neg h4] at h
          rw [ih _ _ h]
          simp [paramIds, List.filter_cons, h1]

/-- C3 (amended): while extracting parameter metadata, a `param_id` property
whose rule id was already opened by an earlier `param_id` property is a
fatal duplicate, and a `param_description` or `param_options` property whose
rule id has no preceding `param_id` property is a fatal orphan —
`get_params_from_item` reports an error in all three situations.  (The rule
extraction `get_rules_from_item`, by contrast, performs no such check; see
the counterexample.) -/
theorem get_params_duplicate_and_orphan_errors (pre suf : List Property) (p : Property) :
    (p.name = "param_id" → string_from_root p.remarks ∈ paramIds pre →
      ∃ e, get_params_from_item (some (pre ++ p :: suf)) = Except.error e) ∧
    (p.name = "param_description" → string_from_root p.remarks ∉ paramIds pre →
      ∃ e, get_params_from_item (some (pre ++ p :: suf)) = Except.error e) ∧
    (p.name = "param_options" → string_from_root p.remarks ∉ paramIds pre →
      ∃ e, get_params_from_item (some (pre ++ p :: suf)) = Except.error e) := by
  have hsplit : get_params_from_item (some (pre ++ p :: suf)) =
      match params_loop [] pre with
      | Except.ok acc' => params_loop acc' (p :: suf)
      | Except.error e => Except.error e := by
    simp [get_params_from_item, as_list, params_loop_append]
  cases hp : params_loop [] pre with
  | error e =>
    refine ⟨fun _ _ => ⟨e, ?_⟩, fun _ _ => ⟨e, ?_⟩, fun _ _ => ⟨e, ?_⟩⟩ <;>
      simp [hsplit, hp]
  | ok acc =>
    have hkeys : acc.map Prod.fst = paramIds pre := by
      simpa using params_loop_keys pre [] acc hp
    refine ⟨fun h1 h2 => ?_, fun h1 h2 => ?_, fun h1 h2 => ?_⟩
    · refine ⟨"Duplicate param " ++ p.value ++ " found for rule " ++ string_from_root p.remarks, ?_⟩
      rw [hsplit, hp]
      simp only [params_loop]
      rw [if_pos h1, if_pos (hkeys ▸ h2)]
    · refine ⟨"Param description for rule " ++ string_from_root p.remarks ++
        " found with no param_id", ?_⟩
      rw [hsplit, hp]
      simp only [params_loop]
      have hno : p.name ≠ "param_id" := by rw [h1]; decide
      rw [if_neg hno, if_pos h1, if_neg (hkeys ▸ h2)]
    · refine ⟨"Param options for rule " ++ string_from_root p.remarks ++
        " found with no param_id", ?_⟩
      rw [hsplit, hp]
      simp only [params_loop]
      have hno : p.name ≠ "param_id" := by rw [h1]; decide
      have hno2 : p.name ≠ "param_description" := by rw [h1]; decide
      rw [if_neg hno, if_neg hno2, if_pos h1, if_neg (hkeys ▸ h2)]

/-- Witness for C3: a duplicate `param_id` pair and an orphaned
`param_description` both error on concrete property lists. -/
theorem get_params_duplicate_and_orphan_errors_witness :
    (∃ e, get_params_from_item (some [⟨"param_id", "p1", some "r1"⟩,
      ⟨"param_id", "p2", some "r1"⟩]) = Except.error e) ∧
    (∃ e, get_params_from_item (some [⟨"param_description", "d", some "r1"⟩]) =
      Except.error e) :=
  ⟨(get_params_duplicate_and_orphan_errors [⟨"param_id", "p1", some "r1"⟩] []
      ⟨"param_id", "p2", some "r1"⟩).1 rfl (by decide),
   (get_params_duplicate_and_orphan_errors [] [] ⟨"param_description", "d", some "r1"⟩).2.1
      rfl (by decide)⟩

/-- C3 counterexample: `get_rules_from_item` does not report a duplicate
rule id — a second `rule_name_id`/`rule_description` pair for rule `r1`
silently overwrites the first, leaving a single merged entry and raising no
error. -/
theorem get_rules_duplicate_silently_merged_counterexample :
    get_rules_from_item (some [⟨"rule_name_id", "n1", some "r1"⟩,
      ⟨"rule_description", "d1", none⟩,
      ⟨"rule_name_id", "n2", some "r1"⟩,
      ⟨"rule_description", "d2", none⟩]) = [("r1", ⟨"n2", "d2"⟩)] := rfl

/-- Unfold `List.lookup` over a cons cell with propositional key equality. -/
theorem lookup_cons_eq {α : Type} (k k0 : String) (v0 : α) (t : List (String × α)) :
    List.lookup k ((k0, v0) :: t) = if k = k0 then some v0 else List.lookup k t := by
  by_cases h : k = k0
  · subst h; simp [List.lookup]
  · simp [List.lookup, beq_false_of_ne h, h]

/-- A key is among the keys of an ordered mapping iff it looks up to some
value. -/
theorem mem_keys_iff_lookup {α : Type} (k : String) (d : List (String × α)) :
    k ∈ d.map Prod.fst ↔ ∃ v, List.lookup k d = some v := by
  induction d with
  | nil => simp [List.lookup]
  | cons kv t ih =>
    obtain ⟨k0, v0⟩ := kv
    by_cases h : k = k0 <;> simp [lookup_cons_eq, h, ih]

/-- `List.lookup` over an append falls through to the right list. -/
theorem lookup_append {α : Type} (k : String) (l1 l2 : List (String × α)) :
    List.lookup k (l1 ++ l2) =
      match List.lookup k l1 with
      | some v => some v
      | none => List.lookup k l2 := by
  induction l1 with
  | nil => simp [List.lookup]
  | cons kv t ih =>
    obtain ⟨k0, v0⟩ := kv
    by_cases h : k = k0 <;> simp [lookup_cons_eq, h, ih]

/-- Looking up in a pointwise-updated mapping: the updated key's value is
transformed, other keys are untouched. -/
theorem lookup_map_update {α : Type} (k k0 : String) (d : List (String × α))
    (f : String × α → α) :
    List.lookup k (d.map fun kv => if kv.1 = k0 then (kv.1, f kv) else kv) =
      if k = k0 then (List.lookup k0 d).map (fun v => f (k0, v)) else List.lookup k d := by
  induction d with
  | nil => by_cases h : k = k0 <;> simp [List.lookup, h]
  | cons kv t ih =>
    obtain ⟨k1, v1⟩ := kv
    by_cases h1 : k1 = k0
    · subst h1
      by_cases h : k = k1 <;> simp [lookup_cons_eq, h, ih]
    · by_cases h : k = k1
      · subst h
        simp [h1, lookup_cons_eq, Ne.symm h1]
      · simp [h1, lookup_cons_eq, h, ih, Ne.symm h1]

/-- The elements appended by `appendNovel d s`: a duplicate-free, order
preserving selection of elements of `s` absent from `d`, covering every
element of `s`. -/
theorem appendNovel_char : ∀ (s d : List JVal), ∃ t : List JVal,
    appendNovel d s = d ++ t ∧ t.Sublist s ∧ (∀ x ∈ t, x ∉ d) ∧
    (∀ x ∈ s, x ∈ d ++ t) ∧ t.Nodup := by
  intro s
  induction s with
  | nil => intro d; exact ⟨[], by simp [appendNovel], by simp, by simp, by simp, by simp⟩
  | cons x rest ih =>
    intro d
    by_cases hx : x ∈ d
    · obtain ⟨t, h1, h2, h3, h4, h5⟩ := ih d
      refine ⟨t, by simp [appendNovel, hx, h1], List.Sublist.cons x h2, h3, ?_, h5⟩
      intro y hy
      rcases List.mem_cons.mp hy with rfl | hy'
      · exact List.mem_append_left _ hx
      · exact h4 y hy'
    · obtain ⟨t', h1, h2, h3, h4, h5⟩ := ih (d ++ [x])
      refine ⟨x :: t', ?_, List.Sublist.cons₂ x h2, ?_, ?_, ?_⟩
      · rw [appendNovel, if_neg hx, h1]
        simp
      · intro y hy
        rcases List.mem_cons.mp hy with rfl | hy'
        · exact hx
        · intro hd
          exact h3 y hy' (List.mem_append_left _ hd)
      · intro y hy
        rcases List.mem_cons.mp hy with rfl | hy'
        · exact List.mem_append_right _ (List.mem_cons_self y t')
        · have hmem := h4 y hy'
          rw [List.append_assoc] at hmem
          simpa using hmem
      · refine List.Nodup.cons ?_ h5
        intro hxt
        exact h3 x hxt (List.mem_append_right _ (by simp))

/-- Lookup characterization of the deep merge on mappings with unique keys:
a shared key holds the `jmerge` of the two values, a one-sided key holds
that side's value. -/
theorem merge_lookup (ov : Bool) : ∀ (src dest : List (String × JVal)),
    (dest.map Prod.fst).Nodup → (src.map Prod.fst).Nodup → ∀ k,
    List.lookup k (merge_dicts_deep dest src ov) =
      match List.lookup k dest, List.lookup k src with
      | some dv, some sv => some (jmerge ov dv sv)
      | some dv, none => some dv
      | none, some sv => some sv
      | none, none => none := by
  intro src
  induction src with
  | nil =>
    intro dest hd hs k
    cases h : List.lookup k dest <;> simp [merge_dicts_deep, List.lookup, h]
  | cons kv rest ih =>
    obtain ⟨k0, v0⟩ := kv
    intro dest hd hs k
    have hs' : k0 ∉ rest.map Prod.fst ∧ (rest.map Prod.fst).Nodup := by
      rw [List.map_cons, List.nodup_cons] at hs
      exact hs
    have hr0 : List.lookup k0 rest = none := by
      cases hh : List.lookup k0 rest with
      | none => rfl
      | some v => exact absurd ((mem_keys_iff_lookup k0 rest).mpr ⟨v, hh⟩) hs'.1
    simp only [merge_dicts_deep]
    by_cases hmem : k0 ∈ dest.map Prod.fst
    · rw [if_pos hmem]
      have hd2 : ((dest.map fun kv =>
          if kv.1 = k0 then (kv.1, jmerge ov kv.2 v0) else kv).map Prod.fst).Nodup := by
        rw [keys_map_update dest k0 (fun kv => jmerge ov kv.2 v0)]
        exact hd
      rw [ih _ hd2 hs'.2 k]
      rw [lookup_map_update k k0 dest (fun kv => jmerge ov kv.2 v0)]
      rcases (mem_keys_iff_lookup k0 dest).mp hmem with ⟨dv, hdv⟩
      by_cases hk : k = k0
      · subst hk
        rw [lookup_cons_eq]
        simp [hdv, hr0]
      · rw [lookup_cons_eq]
        simp [hk]
    · rw [if_neg hmem]
      have hdnone : List.lookup k0 dest = none := by
        cases hh : List.lookup k0 dest with
        | none => rfl
        | some v => exact absurd ((mem_keys_iff_lookup k0 dest).mpr ⟨v, hh⟩) hmem
      have hd2 : (((dest ++ [(k0, v0)]).map Prod.fst)).Nodup := by
        rw [List.map_append, List.nodup_append]
        exact ⟨hd, by simp, by intro a ha hb; simp at hb; subst hb; exact hmem ha⟩
      rw [ih _ hd2 hs'.2 k, lookup_append]
      by_cases hk : k = k0
      · subst hk
        rw [lookup_cons_eq]
        simp [hdnone, hr0, lookup_cons_eq]
      · rw [lookup_cons_eq]
        cases hdd : List.lookup k dest <;> simp [hk, hdd, lookup_cons_eq]

/-- C1: the deep merge of two header mappings — shared keys holding two
mappings merge recursively, shared keys holding two sequences append the
novel elements of the source sequence in order, any other collision keeps
the destination value unless `overwrite` is set, and keys only in the
source are added; together with the four concrete examples of the
specification. -/
theorem merge_dicts_deep_spec (ov : Bool) (dest src : List (String × JVal))
    (hd : (dest.map Prod.fst).Nodup) (hs : (src.map Prod.fst).Nodup) :
    (∀ k, List.lookup k (merge_dicts_deep dest src ov) =
      match List.lookup k dest, List.lookup k src with
      | some dv, some sv => some (jmerge ov dv sv)
      | some dv, none => some dv
      | none, some sv => some sv
      | none, none => none) ∧
    (∀ dd ss : List (String × JVal),
      jmerge ov (JVal.dict dd) (JVal.dict ss) = JVal.dict (merge_dicts_deep dd ss ov)) ∧
    (∀ ld ls : List JVal,
      jmerge ov (JVal.list ld) (JVal.list ls) = JVal.list (appendNovel ld ls)) ∧
    (∀ d s : List JVal, ∃ t : List JVal,
      appendNovel d s = d ++ t ∧ t.Sublist s ∧ (∀ x ∈ t, x ∉ d) ∧
      (∀ x ∈ s, x ∈ d ++ t) ∧ t.Nodup) ∧
    merge_dicts_deep [] [("a", JVal.int 1)] false = [("a", JVal.int 1)] ∧
    merge_dicts_deep [("a", JVal.int 1)] [("a", JVal.int 2)] false = [("a", JVal.int 1)] ∧
    merge_dicts_deep [("a", JVal.int 1)] [("a", JVal.int 2)] true = [("a", JVal.int 2)] ∧
    merge_dicts_deep [("a", JVal.list [JVal.int 1])]
        [("a", JVal.list [JVal.int 1, JVal.int 2])] false =
      [("a", JVal.list [JVal.int 1, JVal.int 2])] := by
  refine ⟨merge_lookup ov src dest hd hs, fun dd ss => by simp [jmerge],
    fun ld ls => by simp [jmerge], fun d s => appendNovel_char s d, ?_, ?_, ?_, ?_⟩ <;>
    simp [merge_dicts_deep, jmerge, appendNovel]

/-- Witness for C1 at the overwrite example. -/
theorem merge_dicts_deep_spec_witness :
    List.lookup "a" (merge_dicts_deep [("a", JVal.int 1)] [("a", JVal.int 2)] true) =
      some (JVal.int 2) := by
  have h := (merge_dicts_deep_spec true [("a", JVal.int 1)] [("a", JVal.int 2)]
    (by simp) (by simp)).1 "a"
  simpa [lookup_cons_eq, jmerge] using h

/-- Pre-order of a part tree: the part itself, then its subtree forest. -/
theorem preorderP_eq (p : Part) : preorderP p = p :: preorderL p.parts := by
  cases p
  simp [preorderP]

/-- Pre-order of a forest distributes over the head and tail. -/
theorem preorderL_cons (p : Part) (rest : List Part) :
    preorderL (p :: rest) = preorderP p ++ preorderL rest := by
  simp [preorderL]

/-- `List.find?` over an append falls through to the right list. -/
theorem find?_append_match {α : Type} (f : α → Bool) (l1 l2 : List α) :
    (l1 ++ l2).find? f =
      match l1.find? f with
      | some x => some x
      | none => l2.find? f := by
  induction l1 with
  | nil => simp
  | cons x t ih =>
    by_cases h : f x
    · simp [List.find?_cons_of_pos, h]
    · simp only [List.cons_append]
      rw [List.find?_cons_of_neg _ (by simp [h]), List.find?_cons_of_neg _ (by simp [h]), ih]

mutual

/-- The recursive section search on one part equals `find?` over its
pre-order, provided every part id in the tree is truthy. -/
theorem find_info_char (p : Part) (skips : List String)
    (h : ∀ q ∈ preorderP p, q.id ≠ "") :
    _find_section_info p skips =
      match (preorderP p).find? (section_match skips) with
      | some q => (q.id, q.name, q.title)
      | none => ("", "", "") := by
  cases p with
  | mk pid name title prose props parts =>
    rw [preorderP_eq]
    simp only [_find_section_info]
    by_cases hc : prose.getD "" ≠ "" ∧ name ∉ skips
    · rw [if_pos hc]
      have hm : section_match skips ⟨pid, name, title, prose, props, parts⟩ = true := by
        simp [section_match]
        exact ⟨hc.1, hc.2⟩
      rw [List.find?_cons_of_pos _ hm]
    · rw [if_neg hc]
      have hm : section_match skips ⟨pid, name, title, prose, props, parts⟩ = false := by
        by_cases h1 : prose.getD "" ≠ ""
        · by_cases h2 : name ∉ skips
          · exact absurd ⟨h1, h2⟩ hc
          · simp [section_match, h1, h2]
        · simp [section_match]
          intro hh
          exact absurd hh h1
      rw [List.find?_cons_of_neg _ (by simp [hm])]
      exact find_loop_char parts skips
        (fun q hq => h q (by rw [preorderP_eq]; exact List.mem_cons_of_mem _ hq))

/-- The search loop over a forest equals `find?` over the forest's
pre-order, provided every part id in the forest is truthy. -/
theorem find_loop_char (ps : List Part) (skips : List String)
    (h : ∀ q ∈ preorderL ps, q.id ≠ "") :
    _find_section_loop ps skips =
      match (preorderL ps).find? (section_match skips) with
      | some q => (q.id, q.name, q.title)
      | none => ("", "", "") := by
  cases ps with
  | nil => simp [_find_section_loop, preorderL]
  | cons p rest =>
    rw [preorderL_cons]
    simp only [_find_section_loop]
    have hmemP : ∀ q ∈ preorderP p, q.id ≠ "" := by
      intro q hq
      exact h q (by rw [preorderL_cons]; exact List.mem_append_left _ hq)
    have hi := find_info_char p skips hmemP
    rw [find?_append_match]
    cases hfp : (preorderP p).find? (section_match skips) with
    | some q =>
      have hq : q ∈ preorderP p := List.mem_of_find?_eq_some hfp
      have hid : q.id ≠ "" := hmemP q hq
      rw [hfp] at hi
      simp only [hi]
      rw [if_pos hid]
    | none =>
      rw [hfp] at hi
      simp only [hi]
      rw [if_neg (by simp)]
      exact find_loop_char rest skips
        (fun q hq => h q (by rw [preorderL_cons]; exact List.mem_append_right _ hq))

end

/-- C4 (amended): on a control all of whose parts carry a truthy id, the
section search is a depth-first pre-order traversal returning the
(id, name, title) of the first part with non-empty prose and an unskipped
name, and the empty triple when there is none; `get_section` additionally
returns the gap-joined prose of the found section.  (A matching part with a
falsy id is not returned as such — see the counterexample.) -/
theorem find_section_first_match (control : Control) (skips : List String)
    (h : ∀ q ∈ preorderL control.parts, q.id ≠ "") :
    (_find_section control skips =
      match (preorderL control.parts).find? (section_match skips) with
      | some q => (q.id, q.name, q.title)
      | none => ("", "", "")) ∧
    (get_section control skips =
      match (preorderL control.parts).find? (section_match skips) with
      | some q => (q.id, q.name, q.title, _get_control_section_prose control q.name)
      | none => ("", "", "", "")) := by
  have h1 := find_loop_char control.parts skips h
  have h1' : _find_section control skips =
      match (preorderL control.parts).find? (section_match skips) with
      | some q => (q.id, q.name, q.title)
      | none => ("", "", "") := h1
  refine ⟨h1', ?_⟩
  simp only [get_section, h1']
  cases hf : (preorderL control.parts).find? (section_match skips) with
  | some q =>
    have hid : q.id ≠ "" := h q (List.mem_of_find?_eq_some hf)
    simp [hid]
  | none => simp

/-- Witness for C4 on a control with two truthy-id parts, the first of them
prose-less. -/
theorem find_section_first_match_witness :
    _find_section ⟨"c1", "t", none, none,
      [⟨"c1_a", "keep", "A", none, none, []⟩,
       ⟨"c1_b", "sec", "B", some "x", none, []⟩]⟩ [] = ("c1_b", "sec", "B") := by
  have h := (find_section_first_match ⟨"c1", "t", none, none,
    [⟨"c1_a", "keep", "A", none, none, []⟩,
     ⟨"c1_b", "sec", "B", some "x", none, []⟩]⟩ [] (by decide)).1
  simpa using h

/-- C4 counterexample: a control whose only part has non-empty prose, an
unskipped name and an empty id — the claim demands that part's triple
`("", "s", "tt")`, but the search returns the empty triple, skipping the
matching part. -/
theorem find_section_empty_id_counterexample :
    _find_section ⟨"c1", "t", none, none, [⟨"", "s", "tt", some "x", none, []⟩]⟩ [] =
      ("", "", "") ∧
    section_match [] ⟨"", "s", "tt", some "x", none, []⟩ = true ∧
    (("", "", "") : String × String × String) ≠ ("", "s", "tt") := by
  refine ⟨rfl, by decide, by decide⟩

/-! Auxiliary facts about Python stripping, used for the prose gap-join. -/

/-- A character list with no leading whitespace. -/
def noLead (l : List Char) : Prop := ∀ c ∈ l.head?, pyIsSpace c = false

/-- A character list with no trailing whitespace. -/
def noTrail (l : List Char) : Prop := noLead l.reverse

/-- String equality from character-list equality. -/
theorem str_ext {a b : String} (h : a.data = b.data) : a = b := by
  cases a
  cases b
  exact congrArg String.mk h

/-- Character data of a string concatenation. -/
theorem str_data_append (a b : String) : (a ++ b).data = a.data ++ b.data := by
  cases a
  cases b
  rfl

/-- A string is empty iff its character data is. -/
theorem str_eq_empty_iff (s : String) : s = "" ↔ s.data = [] := by
  cases s with
  | mk d =>
    constructor
    · intro h
      rw [h]
    · intro h
      exact congrArg String.mk h

/-- `dropWhile` leaves no leading matching character. -/
theorem noLead_stripLeft (l : List Char) : noLead (stripLeft l) := by
  induction l with
  | nil => intro c hc; simp [stripLeft] at hc
  | cons x t ih =>
    by_cases h : pyIsSpace x
    · simpa [stripLeft, List.dropWhile_cons, h] using ih
    · intro c hc
      simp [stripLeft, List.dropWhile_cons, h] at hc
      subst hc
      simpa using h

/-- A list with no leading whitespace is untouched by `stripLeft`. -/
theorem stripLeft_of_noLead {l : List Char} (h : noLead l) : stripLeft l = l := by
  cases l with
  | nil => rfl
  | cons x t =>
    have hx : pyIsSpace x = false := h x (by simp)
    simp [stripLeft, List.dropWhile_cons, hx]

/-- `stripLeft` ignores everything after a non-whitespace head. -/
theorem stripLeft_append_of_noLead {l : List Char} (m : List Char) (hne : l ≠ [])
    (h : noLead l) : stripLeft (l ++ m) = l ++ m := by
  cases l with
  | nil => exact absurd rfl hne
  | cons x t =>
    have hx : pyIsSpace x = false := h x (by simp)
    simp [stripLeft, List.dropWhile_cons, hx]

/-- Dropping the head cannot introduce trailing whitespace. -/
theorem noTrail_tail {c : Char} {t : List Char} (h : noTrail (c :: t)) : noTrail t := by
  cases t with
  | nil => intro x hx; simp at hx
  | cons y u =>
    intro x hx
    apply h x
    simp only [List.reverse_cons]
    rw [List.head?_append_of_ne_nil _ (by simp)]
    simpa using hx

/-- `stripLeft` preserves the absence of trailing whitespace. -/
theorem noTrail_stripLeft {l : List Char} (h : noTrail l) : noTrail (stripLeft l) := by
  induction l with
  | nil => exact h
  | cons x t ih =>
    by_cases hx : pyIsSpace x
    · simpa [stripLeft, List.dropWhile_cons, hx] using ih (noTrail_tail h)
    · simpa [stripLeft, List.dropWhile_cons, hx] using h

/-- The result of a full strip has no leading whitespace. -/
theorem noLead_stripChars (l : List Char) : noLead (stripChars l) :=
  noLead_stripLeft _

/-- The result of a full strip has no trailing whitespace. -/
theorem noTrail_stripChars (l : List Char) : noTrail (stripChars l) := by
  unfold stripChars
  apply noTrail_stripLeft
  unfold noTrail
  rw [List.reverse_reverse]
  exact noLead_stripLeft _

/-- A list with neither leading nor trailing whitespace strips to itself. -/
theorem stripChars_of_clean {l : List Char} (h1 : noLead l) (h2 : noTrail l) :
    stripChars l = l := by
  unfold stripChars
  rw [stripLeft_of_noLead h2, List.reverse_reverse, stripLeft_of_noLead h1]

/-- Stripping is idempotent. -/
theorem stripChars_idem (l : List Char) : stripChars (stripChars l) = stripChars l :=
  stripChars_of_clean (noLead_stripChars l) (noTrail_stripChars l)

/-- `pystrip` is idempotent. -/
theorem pystrip_idem (s : String) : pystrip (pystrip s) = pystrip s :=
  str_ext (stripChars_idem s.data)

/-- A stripped string yields clean character data. -/
theorem clean_of_pystrip_eq {s : String} (h : pystrip s = s) :
    noLead s.data ∧ noTrail s.data := by
  have hd : stripChars s.data = s.data := congrArg String.data h
  exact ⟨hd ▸ noLead_stripChars s.data, hd ▸ noTrail_stripChars s.data⟩

/-- The key join fact: gluing two stripped non-empty lists with a newline
yields a stripped list. -/
theorem stripChars_glue {l1 l2 : List Char} (h1 : l1 ≠ []) (h2 : l2 ≠ [])
    (hl : noLead l1) (ht : noTrail l2) :
    stripChars (l1 ++ '\n' :: l2) = l1 ++ '\n' :: l2 := by
  unfold stripChars
  have hrev : (l1 ++ '\n' :: l2).reverse = l2.reverse ++ '\n' :: l1.reverse := by
    simp
  rw [hrev]
  rw [stripLeft_append_of_noLead _ (by simpa using h2) ht]
  have hrev2 : (l2.reverse ++ '\n' :: l1.reverse).reverse = l1 ++ '\n' :: l2 := by
    simp
  rw [hrev2]
  rw [stripLeft_append_of_noLead _ h1 hl]

/-- String-level version of the glue fact. -/
theorem pystrip_glue {a b : String} (ha : pystrip a = a) (hb : pystrip b = b)
    (hna : a ≠ "") (hnb : b ≠ "") :
    pystrip (a ++ "\n" ++ b) = a ++ "\n" ++ b := by
  apply str_ext
  have hd : (a ++ "\n" ++ b).data = a.data ++ '\n' :: b.data := by
    rw [str_data_append, str_data_append]
    simp
  rw [show (pystrip (a ++ "\n" ++ b)).data = stripChars (a ++ "\n" ++ b).data from rfl, hd]
  exact stripChars_glue (fun hh => hna ((str_eq_empty_iff a).mpr hh))
    (fun hh => hnb ((str_eq_empty_iff b).mpr hh))
    (clean_of_pystrip_eq ha).1 (clean_of_pystrip_eq hb).2

/-- Appending the empty string on the left is the identity. -/
theorem str_empty_append (s : String) : "" ++ s = s := by
  cases s
  rfl

/-- String concatenation is associative. -/
theorem str_append_assoc (a b c : String) : a ++ b ++ c = a ++ (b ++ c) := by
  apply str_ext
  simp [str_data_append]

/-- Gap-joining onto the empty accumulator strips the new piece. -/
theorem gap_join_empty_left (s : String) : _gap_join "" s = pystrip s := by
  have h0 : pystrip "" = "" := rfl
  simp only [_gap_join, h0]
  by_cases h : pystrip s = ""
  · rw [if_pos h, h]
  · rw [if_neg h]
    simp [str_empty_append]

/-- A gap-join of stripped non-empty pieces is stripped and non-empty. -/
theorem joinNL_stripped : ∀ l : List String, (∀ x ∈ l, pystrip x = x ∧ x ≠ "") →
    pystrip (joinNL l) = joinNL l ∧ (l ≠ [] → joinNL l ≠ "") := by
  intro l
  induction l with
  | nil => exact fun _ => ⟨rfl, fun h => absurd rfl h⟩
  | cons x t ih =>
    intro h
    cases t with
    | nil =>
      exact ⟨(h x (by simp)).1, fun _ => (h x (by simp)).2⟩
    | cons y u =>
      have hx := h x (by simp)
      have ht := ih (fun z hz => h z (by simp [hz]))
      have hrest : joinNL (y :: u) ≠ "" := ht.2 (by simp)
      have hglue := pystrip_glue hx.1 ht.1 hx.2 hrest
      refine ⟨hglue, fun _ => ?_⟩
      intro hempty
      have hdata : (x ++ "\n" ++ joinNL (y :: u)).data = [] := by
        rw [str_eq_empty_iff] at hempty
        exact hempty
      rw [str_data_append, str_data_append] at hdata
      simp at hdata

/-- Every piece surviving the strip-and-filter is stripped and non-empty. -/
theorem specJoin_elems (l : List String) :
    ∀ x ∈ (l.map pystrip).filter (· ≠ ""), pystrip x = x ∧ x ≠ "" := by
  intro x hx
  rw [List.mem_filter] at hx
  obtain ⟨hx1, hx2⟩ := hx
  rw [List.mem_map] at hx1
  obtain ⟨y, _, rfl⟩ := hx1
  exact ⟨pystrip_idem y, by simpa using hx2⟩

/-- The specification join is a stripped string. -/
theorem specJoin_stripped (l : List String) : pystrip (specJoin l) = specJoin l :=
  (joinNL_stripped _ (specJoin_elems l)).1

/-- A single piece joins to its stripped form. -/
theorem specJoin_single (s : String) : specJoin [s] = pystrip s := by
  by_cases h : pystrip s = ""
  · simp [specJoin, List.filter, h, joinNL]
  · simp [specJoin, List.filter, h, joinNL]

/-- Joining an append of two non-empty piece lists inserts one newline. -/
theorem joinNL_append : ∀ l1 l2 : List String, l1 ≠ [] → l2 ≠ [] →
    joinNL (l1 ++ l2) = joinNL l1 ++ "\n" ++ joinNL l2 := by
  intro l1
  induction l1 with
  | nil => exact fun l2 h _ => absurd rfl h
  | cons x t ih =>
    intro l2 _ h2
    cases t with
    | nil =>
      cases l2 with
      | nil => exact absurd rfl h2
      | cons y u => simp [joinNL]
    | cons y u =>
      have hrec := ih l2 (by simp) h2
      simp only [List.cons_append] at hrec ⊢
      have e1 : joinNL (x :: y :: (u ++ l2)) = x ++ "\n" ++ joinNL (y :: (u ++ l2)) := rfl
      have e2 : joinNL (x :: y :: u) = x ++ "\n" ++ joinNL (y :: u) := rfl
      rw [e1, hrec, e2]
      simp [str_append_assoc]

/-- The gap-join of two specification joins is the specification join of the
concatenated piece lists. -/
theorem gap_join_specJoin (A B : List String) :
    _gap_join (specJoin A) (specJoin B) = specJoin (A ++ B) := by
  have hAB : specJoin (A ++ B) =
      joinNL (((A.map pystrip).filter (· ≠ "")) ++ ((B.map pystrip).filter (· ≠ ""))) := by
    unfold specJoin
    rw [List.map_append, List.filter_append]
  by_cases hB : (B.map pystrip).filter (· ≠ "") = []
  · have hBe : specJoin B = "" := by unfold specJoin; rw [hB]; rfl
    rw [hBe]
    simp only [_gap_join]
    rw [show pystrip "" = "" from rfl, if_pos rfl, specJoin_stripped, hAB, hB,
      List.append_nil]
    rfl
  · have hBne : specJoin B ≠ "" := (joinNL_stripped _ (specJoin_elems B)).2 hB
    by_cases hA : (A.map pystrip).filter (· ≠ "") = []
    · have hAe : specJoin A = "" := by unfold specJoin; rw [hA]; rfl
      rw [hAe, gap_join_empty_left, specJoin_stripped, hAB, hA, List.nil_append]
      rfl
    · have hAne : specJoin A ≠ "" := (joinNL_stripped _ (specJoin_elems A)).2 hA
      simp only [_gap_join]
      rw [specJoin_stripped, specJoin_stripped, if_neg hBne, if_neg hAne, hAB,
        joinNL_append _ _ hA hB]
      rfl

/-- Folding over the attached children is folding over the children. -/
theorem foldl_attach {α β : Type} (l : List α) (f : β → α → β) (b : β) :
    l.attach.foldl (fun acc x => f acc x.1) b = l.foldl f b := by
  conv_rhs => rw [← List.attach_map_subtype_val l]
  rw [List.foldl_map]

/-- The matching pieces of a forest split head from tail. -/
theorem piecesL_cons (p : Part) (rest : List Part) (name : String) :
    piecesL (p :: rest) name = piecesP p name ++ piecesL rest name := by
  simp [piecesL, piecesP, preorderL_cons]

/-- The matching pieces of a tree: the root's own contribution, then the
children's. -/
theorem piecesP_eq (pid nm title : String) (prose : Option String)
    (props : Option (List Property)) (parts : List Part) (name : String) :
    piecesP ⟨pid, nm, title, prose, props, parts⟩ name =
      (if nm = name then prose else none).toList ++ piecesL parts name := by
  rw [piecesP, preorderP_eq, List.filterMap_cons]
  by_cases h : nm = name
  · simp only [Part.name, Part.parts, h, if_pos rfl]
    cases prose <;> simp [piecesL]
  · simp [Part.name, Part.parts, h, piecesL]

mutual

/-- The recursive prose collection on one part equals the specification
join of its matching pieces. -/
theorem sect_part_char (p : Part) (name : String) :
    _get_control_section_part p name = specJoin (piecesP p name) := by
  cases p with
  | mk pid nm title prose props parts =>
    simp only [_get_control_section_part]
    rw [foldl_attach parts (fun acc q => _gap_join acc (_get_control_section_part q name))]
    have hinit : (if nm = name ∧ prose.isSome then _gap_join "" (prose.getD "") else "") =
        specJoin ((if nm = name then prose else none).toList) := by
      by_cases h1 : nm = name
      · cases prose with
        | none => simp [h1, specJoin, joinNL]
        | some s => simp [h1, gap_join_empty_left, specJoin_single]
      · simp [h1, specJoin, joinNL]
    rw [hinit, sect_forest_char parts name ((if nm = name then prose else none).toList),
      piecesP_eq]

/-- Folding the prose collection over a forest extends the accumulated
pieces by the forest's matching pieces. -/
theorem sect_forest_char (ps : List Part) (name : String) (A : List String) :
    ps.foldl (fun acc q => _gap_join acc (_get_control_section_part q name)) (specJoin A) =
      specJoin (A ++ piecesL ps name) := by
  cases ps with
  | nil => simp [piecesL, preorderL]
  | cons q rest =>
    simp only [List.foldl_cons]
    rw [sect_part_char q name, gap_join_specJoin A (piecesP q name),
      sect_forest_char rest name (A ++ piecesP q name), piecesL_cons, List.append_assoc]

end

/-- C5: `get_section_prose` concatenates, in document order, the prose of
all parts at any depth whose name matches, under the gap-join rule — empty
or whitespace-only pieces contribute nothing, consecutive surviving pieces
are separated by exactly one newline, and the result carries no leading or
trailing whitespace. -/
theorem get_section_prose_gap_join (control : Control) (name : String) :
    _get_control_section_prose control name = specJoin (matchingProses control name) ∧
    pystrip (_get_control_section_prose control name) =
      _get_control_section_prose control name := by
  have h : _get_control_section_prose control name =
      specJoin (matchingProses control name) := by
    have hf := sect_forest_char control.parts name []
    simpa [_get_control_section_prose, matchingProses] using hf
  exact ⟨h, by rw [h]; exact specJoin_stripped _⟩

/-! Lemmas for the implemented-requirement upsert (C2). -/

/-- `as_list` undoes `none_if_empty`. -/
theorem as_list_none_if_empty {α : Type} (l : List α) : as_list (none_if_empty l) = l := by
  by_cases h : l.isEmpty
  · rw [List.isEmpty_iff] at h
    simp [none_if_empty, as_list, h]
  · simp [none_if_empty, as_list, h]

/-- A property collection carries at most one implementation-status
property (the "at most one instance" assumption of the source). -/
def statusWF (props : Option (List Property)) : Prop :=
  ((as_list props).filter (fun p => p.name = IMPLEMENTATION_STATUS)).length ≤ 1

/-- After deleting the first status property of a well-formed collection no
status property remains. -/
theorem erase_first_no_status (l : List Property)
    (h : (l.filter (fun p => p.name = IMPLEMENTATION_STATUS)).length ≤ 1) :
    (erase_first_prop l IMPLEMENTATION_STATUS).find?
      (fun p => p.name = IMPLEMENTATION_STATUS) = none := by
  induction l with
  | nil => simp [erase_first_prop]
  | cons p t ih =>
    by_cases hp : p.name = IMPLEMENTATION_STATUS
    · rw [erase_first_prop, if_pos hp]
      rw [List.filter_cons_of_pos (by simpa using hp)] at h
      have ht : t.filter (fun p => p.name = IMPLEMENTATION_STATUS) = [] := by
        have hlen : (t.filter (fun p => p.name = IMPLEMENTATION_STATUS)).length = 0 := by
          simpa using h
        exact List.eq_nil_of_length_eq_zero hlen
      rw [List.find?_eq_none]
      intro x hx hcontra
      have hmem : x ∈ t.filter (fun p => p.name = IMPLEMENTATION_STATUS) :=
        List.mem_filter.mpr ⟨hx, by simpa using hcontra⟩
      rw [ht] at hmem
      exact absurd hmem (by simp)
    · rw [erase_first_prop, if_neg hp]
      rw [List.find?_cons_of_neg _ (by simpa using hp)]
      refine ih ?_
      rw [List.filter_cons_of_neg (by simpa using hp)] at h
      exact h

/-- Inserting a status into a well-formed property collection makes that
status the one reported by `get_status_from_props`. -/
theorem get_status_insert (props : Option (List Property)) (st : ImplementationStatus)
    (h : statusWF props) :
    get_status_from_props (insert_status_in_props props st) = st := by
  simp only [insert_status_in_props, replace_prop, _status_as_prop, get_status_from_props]
  rw [show as_list (some (erase_first_prop (as_list props) IMPLEMENTATION_STATUS ++
      [⟨IMPLEMENTATION_STATUS, st.state, st.remarks⟩])) =
    erase_first_prop (as_list props) IMPLEMENTATION_STATUS ++
      [⟨IMPLEMENTATION_STATUS, st.state, st.remarks⟩] from rfl]
  rw [find?_append_match]
  rw [erase_first_no_status (as_list props) h]
  simp

/-- A hit in the statement dictionary carries the looked-up id. -/
theorem statement_dict_get_id (sid : String) (l : List Statement) :
    ∀ (acc : Option Statement), (∀ st, acc = some st → st.statement_id = sid) →
    ∀ st, l.foldl (fun a s => if s.statement_id = sid then some s else a) acc = some st →
      st.statement_id = sid := by
  induction l with
  | nil => intro acc hacc st h; exact hacc st h
  | cons s t ih =>
    intro acc hacc st h
    refine ih _ ?_ st h
    intro st' h'
    have h'' : (if s.statement_id = sid then some s else acc) = some st' := h'
    by_cases hs : s.statement_id = sid
    · rw [if_pos hs] at h''
      cases h''
      exact hs
    · rw [if_neg hs] at h''
      exact hacc st' h''

/-- A hit of the statement-dictionary fold is an original statement or the
initial accumulator. -/
theorem statement_dict_fold_mem (sid : String) : ∀ (l : List Statement)
    (acc : Option Statement) (st : Statement),
    l.foldl (fun a s => if s.statement_id = sid then some s else a) acc = some st →
    st ∈ l ∨ acc = some st := by
  intro l
  induction l with
  | nil => intro acc st h; exact Or.inr h
  | cons s t ih =>
    intro acc st h
    rcases ih _ st h with hmem | hacc
    · exact Or.inl (List.mem_cons_of_mem _ hmem)
    · have hacc' : (if s.statement_id = sid then some s else acc) = some st := hacc
      by_cases hs : s.statement_id = sid
      · rw [if_pos hs] at hacc'
        cases hacc'
        exact Or.inl (List.mem_cons_self _ _)
      · rw [if_neg hs] at hacc'
        exact Or.inr hacc'

/-- A hit in the statement dictionary is one of the original statements. -/
theorem statement_dict_get_mem {sid : String} {l : List Statement} {st : Statement}
    (h : statement_dict_get l sid = some st) : st ∈ l := by
  rcases statement_dict_fold_mem sid l none st h with hmem | hacc
  · exact hmem
  · exact absurd hacc (by simp)

/-- A hit in the statement dictionary carries the looked-up id. -/
theorem statement_dict_get_id' {sid : String} {l : List Statement} {st : Statement}
    (h : statement_dict_get l sid = some st) : st.statement_id = sid :=
  statement_dict_get_id sid l none (by intro st' h'; cases h') st h

/-- The inner upsert loop misses exactly when no requirement matches the
control id. -/
theorem try_update_imp_reqs_none (nr : ImplementedRequirement) :
    ∀ irs : List ImplementedRequirement,
    try_update_imp_reqs nr irs = none ↔ ∀ ir ∈ irs, ir.control_id ≠ nr.control_id := by
  intro irs
  induction irs with
  | nil => simp [try_update_imp_reqs]
  | cons ir rest ih =>
    by_cases h : ir.control_id = nr.control_id
    · simp [try_update_imp_reqs, h]
    · simp only [try_update_imp_reqs, if_neg h, Option.map_eq_none', ih]
      constructor
      · intro hall x hx
        rcases List.mem_cons.mp hx with rfl | hx'
        · exact h
        · exact hall x hx'
      · intro hall x hx
        exact hall x (List.mem_cons_of_mem _ hx)

/-- The inner upsert loop updates exactly the first matching requirement. -/
theorem try_update_imp_reqs_split (nr : ImplementedRequirement)
    (old : ImplementedRequirement) (hold : old.control_id = nr.control_id) :
    ∀ (ipre ipost : List ImplementedRequirement),
    (∀ ir ∈ ipre, ir.control_id ≠ nr.control_id) →
    try_update_imp_reqs nr (ipre ++ old :: ipost) =
      some (ipre ++ update_imp_req old nr :: ipost) := by
  intro ipre
  induction ipre with
  | nil =>
    intro ipost _
    simp [try_update_imp_reqs, hold]
  | cons ir rest ih =>
    intro ipost hpre
    have hir : ir.control_id ≠ nr.control_id := hpre ir (by simp)
    simp only [List.cons_append, try_update_imp_reqs, if_neg hir, List.append_eq]
    rw [ih ipost (fun x hx => hpre x (List.mem_cons_of_mem _ hx))]
    rfl

/-- The outer upsert loop misses exactly when no bucket holds a matching
requirement. -/
theorem try_update_cis_none (nr : ImplementedRequirement) :
    ∀ cis : List ControlImplementation,
    try_update_cis nr cis = none ↔
      ∀ ci ∈ cis, ∀ ir ∈ as_list ci.implemented_requirements,
        ir.control_id ≠ nr.control_id := by
  intro cis
  induction cis with
  | nil => simp [try_update_cis]
  | cons ci rest ih =>
    cases hinner : try_update_imp_reqs nr (as_list ci.implemented_requirements) with
    | some irs =>
      simp only [try_update_cis, hinner]
      constructor
      · intro h
        simp at h
      · intro h
        have hcontra := (try_update_imp_reqs_none nr
          (as_list ci.implemented_requirements)).mpr (h ci (by simp))
        rw [hcontra] at hinner
        exact absurd hinner (by simp)
    | none =>
      simp only [try_update_cis, hinner, Option.map_eq_none', ih]
      have hci := (try_update_imp_reqs_none nr (as_list ci.implemented_requirements)).mp hinner
      constructor
      · intro hall x hx
        rcases List.mem_cons.mp hx with rfl | hx'
        · exact hci
        · exact hall x hx'
      · intro hall x hx
        exact hall x (List.mem_cons_of_mem _ hx)

/-- The outer upsert loop updates exactly the first bucket containing a
match, rewriting only its first matching requirement. -/
theorem try_update_cis_split (nr : ImplementedRequirement)
    (ci : ControlImplementation) (old : ImplementedRequirement)
    (ipre ipost : List ImplementedRequirement)
    (hci : as_list ci.implemented_requirements = ipre ++ old :: ipost)
    (hipre : ∀ ir ∈ ipre, ir.control_id ≠ nr.control_id)
    (hold : old.control_id = nr.control_id) :
    ∀ (pre post : List ControlImplementation),
    (∀ b ∈ pre, ∀ ir ∈ as_list b.implemented_requirements,
      ir.control_id ≠ nr.control_id) →
    try_update_cis nr (pre ++ ci :: post) =
      some (pre ++ { ci with
        implemented_requirements := some (ipre ++ update_imp_req old nr :: ipost) } :: post) := by
  intro pre
  induction pre with
  | nil =>
    intro post _
    simp only [List.nil_append, try_update_cis, hci,
      try_update_imp_reqs_split nr old hold ipre ipost hipre]
  | cons b rest ih =>
    intro post hpre
    have hb : try_update_imp_reqs nr (as_list b.implemented_requirements) = none :=
      (try_update_imp_reqs_none nr _).mpr (hpre b (by simp))
    simp only [List.cons_append, try_update_cis, hb, List.append_eq]
    rw [ih post (fun x hx => hpre x (List.mem_cons_of_mem _ hx))]
    rfl

/-- Pointwise description of the statement merge: one output statement per
new statement, in order; its id is the new id, its description and status
are the new ones, and its other fields (witnessed by `uuid`) come from the
old statement with the same id when one exists, else from the new one. -/
theorem merge_statements_pointwise (old_stmts new_stmts : List Statement)
    (hwOld : ∀ s ∈ old_stmts, statusWF s.props)
    (hwNew : ∀ s ∈ new_stmts, statusWF s.props) :
    (merge_statements old_stmts new_stmts).length = new_stmts.length ∧
    ∀ k (hk : k < new_stmts.length),
      ∃ m, (merge_statements old_stmts new_stmts)[k]? = some m ∧
        m.statement_id = (new_stmts[k]).statement_id ∧
        m.description = (new_stmts[k]).description ∧
        get_status_from_props m.props = get_status_from_props ((new_stmts[k]).props) ∧
        m.uuid = ((statement_dict_get old_stmts (new_stmts[k]).statement_id).getD
          (new_stmts[k])).uuid := by
  constructor
  · simp [merge_statements]
  · intro k hk
    have hget : (merge_statements old_stmts new_stmts)[k]? =
        some (update_statement
          ((statement_dict_get old_stmts (new_stmts[k]).statement_id).getD (new_stmts[k]))
          (new_stmts[k])) := by
      rw [merge_statements, List.getElem?_map, List.getElem?_eq_getElem hk]
      rfl
    refine ⟨_, hget, ?_, ?_, ?_, ?_⟩
    · cases hd : statement_dict_get old_stmts (new_stmts[k]).statement_id with
      | some o =>
        simp [update_statement, hd, statement_dict_get_id' hd]
      | none => simp [update_statement, hd]
    · simp [update_statement]
    · have hwf : statusWF ((statement_dict_get old_stmts
          (new_stmts[k]).statement_id).getD (new_stmts[k])).props := by
        cases hd : statement_dict_get old_stmts (new_stmts[k]).statement_id with
        | some o =>
          simp only [hd, Option.getD_some]
          exact hwOld o (statement_dict_get_mem hd)
        | none =>
          simp only [hd, Option.getD_none]
          exact hwNew _ (List.getElem_mem hk)
      show get_status_from_props (update_statement _ _).props = _
      simp only [update_statement, _copy_status_in_props]
      exact get_status_insert _ _ hwf
    · simp [update_statement]

/-- C2: `insert_imp_req_into_component` upserts by control id.  When no
existing implemented requirement matches, the new record is appended to the
first control-implementation bucket, which is created when the component
has none.  When the first match sits at position `(pre, ipre)`, only that
record is rewritten: its status becomes the new record's status and its
statements are merged by statement id — new description and status win, an
existing statement object is retained for the fields the new one does not
carry — assuming the usual at-most-one-status-property shape. -/
theorem insert_imp_req_upsert (c : DefinedComponent) (nr : ImplementedRequirement) :
    ((∀ ci ∈ as_list c.control_implementations,
        ∀ ir ∈ as_list ci.implemented_requirements, ir.control_id ≠ nr.control_id) →
      insert_imp_req_into_component c nr =
        (match as_list c.control_implementations with
        | [] => { c with
            control_implementations := some [⟨uuid4_str, REPLACE_ME, REPLACE_ME, some [nr]⟩] }
        | ci0 :: rest => { c with
            control_implementations := some ({ ci0 with
              implemented_requirements :=
                some (as_list ci0.implemented_requirements ++ [nr]) } :: rest) })) ∧
    (∀ (pre post : List ControlImplementation) (ci : ControlImplementation)
        (ipre ipost : List ImplementedRequirement) (old : ImplementedRequirement),
      as_list c.control_implementations = pre ++ ci :: post →
      (∀ b ∈ pre, ∀ ir ∈ as_list b.implemented_requirements,
        ir.control_id ≠ nr.control_id) →
      as_list ci.implemented_requirements = ipre ++ old :: ipost →
      (∀ ir ∈ ipre, ir.control_id ≠ nr.control_id) →
      old.control_id = nr.control_id →
      statusWF old.props →
      (∀ s ∈ as_list old.statements, statusWF s.props) →
      (∀ s ∈ as_list nr.statements, statusWF s.props) →
      ∃ upd, insert_imp_req_into_component c nr =
          { c with control_implementations := some (pre ++ { ci with
            implemented_requirements := some (ipre ++ upd :: ipost) } :: post) } ∧
        upd.uuid = old.uuid ∧ upd.control_id = old.control_id ∧
        upd.description = old.description ∧
        get_status_from_props upd.props = get_status_from_props nr.props ∧
        (as_list upd.statements).length = (as_list nr.statements).length ∧
        ∀ k (hk : k < (as_list nr.statements).length),
          ∃ m, (as_list upd.statements)[k]? = some m ∧
            m.statement_id = ((as_list nr.statements)[k]).statement_id ∧
            m.description = ((as_list nr.statements)[k]).description ∧
            get_status_from_props m.props =
              get_status_from_props (((as_list nr.statements)[k]).props) ∧
            m.uuid = ((statement_dict_get (as_list old.statements)
              ((as_list nr.statements)[k]).statement_id).getD
                ((as_list nr.statements)[k])).uuid) := by
  constructor
  · intro h
    have hnone : try_update_cis nr (as_list c.control_implementations) = none :=
      (try_update_cis_none nr _).mpr h
    simp only [insert_imp_req_into_component, hnone]
    cases hcis : as_list c.control_implementations with
    | nil => simp [as_list]
    | cons c0 rest => simp [as_list]
  · intro pre post ci ipre ipost old h1 h2 h3 h4 h5 hwf hwOld hwNew
    have hmerge := merge_statements_pointwise (as_list old.statements)
      (as_list nr.statements) hwOld hwNew
    have hstmts : as_list (update_imp_req old nr).statements =
        merge_statements (as_list old.statements) (as_list nr.statements) := by
      simp only [update_imp_req]
      exact as_list_none_if_empty _
    refine ⟨update_imp_req old nr, ?_, by simp [update_imp_req], by simp [update_imp_req],
      by simp [update_imp_req], ?_, ?_, ?_⟩
    · have hsplit := try_update_cis_split nr ci old ipre ipost h3 h4 h5 pre post h2
      simp only [insert_imp_req_into_component, h1, hsplit]
    · show get_status_from_props (replace_prop old.props
        (_status_as_prop (get_status_from_props nr.props))) = _
      exact get_status_insert old.props _ hwf
    · rw [hstmts]
      exact hmerge.1
    · intro k hk
      rw [hstmts]
      exact hmerge.2 k hk

/-- Witness for C2: inserting into a component with no
control-implementations creates the first bucket and appends the new
requirement. -/
theorem insert_imp_req_upsert_witness :
    insert_imp_req_into_component ⟨"comp", none⟩ ⟨"u1", "c-1", "d", none, none⟩ =
      ⟨"comp", some [⟨uuid4_str, REPLACE_ME, REPLACE_ME,
        some [⟨"u1", "c-1", "d", none, none⟩]⟩]⟩ := by
  have h := (insert_imp_req_upsert ⟨"comp", none⟩ ⟨"u1", "c-1", "d", none, none⟩).1
    (by intro ci hci; simp [as_list] at hci)
  simpa [as_list] using h

end Trestle
